import Mathlib

/-!
Verification development for the H.235 media-crypto engine of
`src/h235/h235crypto.cxx` (h323plus).

The AES block primitive itself lives in OpenSSL and is referenced by the
source only through the EVP interface, so it is abstracted here as a pair of
functions `E D : List Nat → List Nat` (the keyed forward and inverse block
permutations); theorems assume only that they preserve the 16-byte block
length and are mutually inverse (`GoodCipher`).  The CBC chaining, the EVP
update/final buffering and the per-packet IV handling are modelled
concretely, byte lists standing for byte arrays.  The repository's own
helper code (`H235CryptoHelper`), engine (`H235CryptoEngine`) and session
(`H235Session`) are translated function by function from the source.

Buffers are modelled as `List Nat`.  The helper's staging array
`buf[block_size]` together with its counter `buf_len` is represented by a
single list holding the meaningful prefix `buf[0..buf_len)`, so
`buf_len = buf.length`; `final_buf` is kept as a whole 16-byte list.
-/

/-- Byte-wise XOR of two buffers (pointwise `^` loops in the source). -/
def xorBytes (a b : List Nat) : List Nat := List.zipWith Nat.xor a b

/-- One CBC encryption pass over a flat byte buffer, 16 bytes at a time:
each block is XORed with the running IV and sent through the forward block
permutation; the ciphertext block becomes the next IV.  Returns the produced
bytes and the final IV.  Fuel-indexed so that it is structurally recursive;
`cbcEncFlat` instantiates the fuel with the buffer length. -/
def cbcEncAux (E : List Nat → List Nat) : Nat → List Nat → List Nat → List Nat × List Nat
  | 0, iv, _ => ([], iv)
  | Nat.succ fuel, iv, l =>
    if l = [] then ([], iv)
    else
      let c := E (xorBytes iv (l.take 16))
      let rest := cbcEncAux E fuel c (l.drop 16)
      (c ++ rest.1, rest.2)

/-- CBC encryption of a flat buffer (the EVP block layer in encrypt
direction). -/
def cbcEncFlat (E : List Nat → List Nat) (iv l : List Nat) : List Nat × List Nat :=
  cbcEncAux E l.length iv l

/-- One CBC decryption pass over a flat byte buffer: each 16-byte ciphertext
block is sent through the inverse block permutation and XORed with the
running IV; the ciphertext block becomes the next IV. -/
def cbcDecAux (D : List Nat → List Nat) : Nat → List Nat → List Nat → List Nat × List Nat
  | 0, iv, _ => ([], iv)
  | Nat.succ fuel, iv, l =>
    if l = [] then ([], iv)
    else
      let blk := l.take 16
      let p := xorBytes (D blk) iv
      let rest := cbcDecAux D fuel blk (l.drop 16)
      (p ++ rest.1, rest.2)

/-- CBC decryption of a flat buffer (the EVP block layer in decrypt
direction). -/
def cbcDecFlat (D : List Nat → List Nat) (iv l : List Nat) : List Nat × List Nat :=
  cbcDecAux D l.length iv l

/-- The assumptions the development makes about the abstracted AES block
permutations: both directions preserve the 16-byte block length and the
inverse direction undoes the forward one. -/
def GoodCipher (E D : List Nat → List Nat) : Prop :=
  (∀ b : List Nat, b.length = 16 → (E b).length = 16) ∧
  (∀ b : List Nat, b.length = 16 → (D b).length = 16) ∧
  (∀ b : List Nat, b.length = 16 → D (E b) = b)

/-- An `EVP_CIPHER_CTX` as far as the source observes it: the running IV,
the padding flag (`EVP_CIPH_NO_PADDING` toggled by
`EVP_CIPHER_CTX_set_padding`), OpenSSL's internal partial-block buffer, and
the direction the context was initialised for. -/
structure EvpCtx where
  iv : List Nat
  padding : Bool
  buf : List Nat
  encrypt : Bool
deriving Repr, DecidableEq

/-- `EVP_Cipher`: the raw block call used by the helper code.  The input
length is a multiple of the block size at every call site; the context IV is
advanced across the processed blocks.  The modelled primitive is total, so
the failure returns of the C API cannot occur here. -/
def EVP_Cipher (E D : List Nat → List Nat) (ctx : EvpCtx) (inp : List Nat) :
    List Nat × EvpCtx :=
  if ctx.encrypt then
    let r := cbcEncFlat E ctx.iv inp
    (r.1, { ctx with iv := r.2 })
  else
    let r := cbcDecFlat D ctx.iv inp
    (r.1, { ctx with iv := r.2 })

/-- `EVP_EncryptUpdate` (OpenSSL, referenced by interface): ciphers all
complete blocks of the buffered leftover plus the new input and keeps the
remainder (`< 16` bytes) in the context buffer. -/
def EVP_EncryptUpdate (E : List Nat → List Nat) (ctx : EvpCtx) (inp : List Nat) :
    List Nat × EvpCtx :=
  let total := ctx.buf ++ inp
  let keep := total.length % 16
  let r := cbcEncFlat E ctx.iv (total.take (total.length - keep))
  (r.1, { ctx with iv := r.2, buf := total.drop (total.length - keep) })

/-- `EVP_EncryptFinal_ex` (OpenSSL, referenced by interface): with padding
disabled it fails unless the buffer is empty and emits nothing; with padding
enabled it fills the partial block with PKCS#7 bytes and emits one final
ciphered block. -/
def EVP_EncryptFinal (E : List Nat → List Nat) (ctx : EvpCtx) :
    Option (List Nat × EvpCtx) :=
  if ctx.padding = false then
    if ctx.buf.length ≠ 0 then none else some ([], ctx)
  else
    let n := 16 - ctx.buf.length
    let r := cbcEncFlat E ctx.iv (ctx.buf ++ List.replicate n n)
    some (r.1, { ctx with iv := r.2, buf := [] })

/-- `H235CryptoHelper` state (`h235crypto.h` / `h235crypto.cxx`): `buf` is
the meaningful prefix `buf[0..buf_len)` of the staging array, `final_buf`
the one-block lookahead, `final_used` its occupancy flag (an `int` used as a
boolean in the source). -/
structure H235CryptoHelper where
  buf : List Nat
  final_buf : List Nat
  final_used : Bool
deriving Repr, DecidableEq

/-- The `H235CryptoHelper` constructor: zeroes both arrays and resets the
counters. -/
def mkH235CryptoHelper : H235CryptoHelper :=
  { buf := [], final_buf := List.replicate 16 0, final_used := false }

/-- `H235CryptoHelper::Reset`: clears the counters (`buf_len = 0`,
`final_used = 0`) without touching the backing arrays. -/
def Reset (h : H235CryptoHelper) : H235CryptoHelper :=
  { h with buf := [], final_used := false }

/-- `H235CryptoHelper::EncryptUpdateCTS` (lines 96-165): streaming CBC
update that always keeps one already-staged block in `final_buf` and the
trailing partial (or exactly full) block in `buf`, so that the CTS final can
swap the last two blocks.  Returns the emitted bytes, the new helper state
and the advanced context. -/
def EncryptUpdateCTS (E D : List Nat → List Nat) (ctx : EvpCtx)
    (h : H235CryptoHelper) (inp : List Nat) :
    List Nat × H235CryptoHelper × EvpCtx :=
  let bl := 16
  if inp.length = 0 then ([], h, ctx)
  else if h.buf.length + inp.length ≤ bl then
    ([], { h with buf := h.buf ++ inp }, ctx)
  else
    let fstep :=
      if h.final_used then
        let r := EVP_Cipher E D ctx h.final_buf
        (r.1, { h with final_used := false }, r.2)
      else ([], h, ctx)
    let out0 := fstep.1
    let h0 := fstep.2.1
    let ctx0 := fstep.2.2
    let j := bl - h0.buf.length
    let bufFull := h0.buf ++ inp.take j
    let rest := inp.drop j
    if rest.length ≤ bl then
      (out0, { buf := rest, final_buf := bufFull, final_used := true }, ctx0)
    else
      let r1 := EVP_Cipher E D ctx0 bufFull
      let leftover := rest.length % bl
      let inl3 := if leftover ≠ 0 then rest.length - (bl + leftover)
                  else rest.length - 2 * bl
      let keep := if leftover ≠ 0 then leftover else bl
      let newBuf := (rest.drop (inl3 + bl)).take keep
      let newFinal := (rest.drop inl3).take bl
      let r2 := EVP_Cipher E D r1.2 (rest.take inl3)
      (out0 ++ r1.1 ++ r2.1,
       { buf := newBuf, final_buf := newFinal, final_used := true }, r2.2)

/-- `H235CryptoHelper::EncryptFinalCTS` (lines 167-230), CBC branch (the
engine only ever creates CBC contexts): requires a staged block and a
pending partial block, ciphers the staged block, then the zero-padded
partial block, and emits the swapped pair truncated to
`block_size + buf_len` bytes.  `none` models the `return 0` error paths. -/
def EncryptFinalCTS (E D : List Nat → List Nat) (ctx : EvpCtx)
    (h : H235CryptoHelper) : Option (List Nat × EvpCtx) :=
  if h.final_used = false then none
  else if h.buf.length = 0 then none
  else
    let leftover := h.buf.length
    let r1 := EVP_Cipher E D ctx h.final_buf
    let r2 := EVP_Cipher E D r1.2 (h.buf ++ List.replicate (16 - leftover) 0)
    some (r2.1 ++ r1.1.take leftover, r2.2)

/-- `H235CryptoHelper::EncryptUpdate` (lines 232-280): the standard
streaming block update (taken from OpenSSL): emits only complete blocks and
carries the partial tail in `buf`. -/
def EncryptUpdate (E D : List Nat → List Nat) (ctx : EvpCtx)
    (h : H235CryptoHelper) (inp : List Nat) :
    List Nat × H235CryptoHelper × EvpCtx :=
  let bl := 16
  if inp.length = 0 then ([], h, ctx)
  else if h.buf.length = 0 ∧ inp.length % bl = 0 then
    let r := EVP_Cipher E D ctx inp
    (r.1, h, r.2)
  else if h.buf.length ≠ 0 ∧ h.buf.length + inp.length < bl then
    ([], { h with buf := h.buf ++ inp }, ctx)
  else
    let step1 :=
      if h.buf.length ≠ 0 then
        let j := bl - h.buf.length
        let r := EVP_Cipher E D ctx (h.buf ++ inp.take j)
        (r.1, r.2, inp.drop j)
      else ([], ctx, inp)
    let out0 := step1.1
    let ctx0 := step1.2.1
    let rest := step1.2.2
    let i := rest.length % bl
    let full := rest.length - i
    let r1 := if 0 < full then EVP_Cipher E D ctx0 (rest.take full)
              else ([], ctx0)
    (out0 ++ r1.1, { h with buf := rest.drop full }, r1.2)

/-- `H235CryptoHelper::DecryptUpdateCTS` (lines 282-286): delegates to the
encrypt-side bookkeeping; the context is decrypt-initialised so the block
calls decipher. -/
def DecryptUpdateCTS (E D : List Nat → List Nat) (ctx : EvpCtx)
    (h : H235CryptoHelper) (inp : List Nat) :
    List Nat × H235CryptoHelper × EvpCtx :=
  EncryptUpdateCTS E D ctx h inp

/-- `H235CryptoHelper::DecryptFinalCTS` (lines 288-372), CBC branch: undoes
the two-block CTS swap using the context IV as `C_{n-2}`. -/
def DecryptFinalCTS (E D : List Nat → List Nat) (ctx : EvpCtx)
    (h : H235CryptoHelper) : Option (List Nat × EvpCtx) :=
  if h.final_used = false then none
  else if h.buf.length = 0 then none
  else
    let leftover := h.buf.length
    let cnm2 := ctx.iv
    let bufZ := h.buf ++ List.replicate (16 - leftover) 0
    let r1 := EVP_Cipher E D ctx h.final_buf
    let tmp := xorBytes (xorBytes r1.1 cnm2) bufZ
    let bufC := h.buf ++ tmp.drop leftover
    let r2 := EVP_Cipher E D r1.2 bufC
    let o := xorBytes (xorBytes r2.1 h.final_buf) cnm2
    some (o ++ tmp.take leftover, r2.2)

/-- `H235CryptoHelper::DecryptUpdate` (lines 374-414): with padding disabled
it is exactly the standard update; with padding enabled it additionally
withholds the last fully deciphered block in `final_buf` (emitting a
previously withheld block first) so the relaxed final can unpad it. -/
def DecryptUpdate (E D : List Nat → List Nat) (ctx : EvpCtx)
    (h : H235CryptoHelper) (inp : List Nat) :
    List Nat × H235CryptoHelper × EvpCtx :=
  if inp.length = 0 then ([], h, ctx)
  else if ctx.padding = false then EncryptUpdate E D ctx h inp
  else
    let bl := 16
    let pre := if h.final_used then h.final_buf else []
    let r := EncryptUpdate E D ctx h inp
    let o := r.1
    let h1 := r.2.1
    let ctx1 := r.2.2
    if h1.buf.length = 0 then
      (pre ++ o.take (o.length - bl),
       { h1 with final_used := true, final_buf := o.drop (o.length - bl) },
       ctx1)
    else
      (pre ++ o, { h1 with final_used := false }, ctx1)

/-- `H235CryptoHelper::DecryptFinalRelaxed` (lines 416-455): with padding
disabled, succeed (emitting nothing) iff no partial block is pending.  With
padding enabled, require an empty staging buffer and a withheld block, read
only its last byte `n`, fail iff `n = 0 ∨ n > 16`, and otherwise emit the
first `16 - n` bytes of the withheld block; the PKCS#7 filler check is
disabled in the source (Polycom workaround).  Neither the helper nor the
context is modified. -/
def DecryptFinalRelaxed (ctx : EvpCtx) (h : H235CryptoHelper) :
    Option (List Nat) :=
  if ctx.padding = false then
    if h.buf.length ≠ 0 then none else some []
  else
    if h.buf.length ≠ 0 ∨ h.final_used = false then none
    else
      let n := h.final_buf.getD 15 0
      if n = 0 ∨ n > 16 then none
      else some (h.final_buf.take (16 - n))

/-- `IV_SEQUENCE_LEN` (line 65): the IV seed is always 6 bytes (2-byte RTP
sequence number plus 4 timestamp bytes). -/
def IV_SEQUENCE_LEN : Nat := 6

/-- Algorithm OID for AES-128-CBC.  The OID string constants live in
repository headers outside `src/`; only their values being pairwise
distinct matters to the code modelled here. -/
def ID_AES128 : String := "2.16.840.1.101.3.4.1.2"

/-- Algorithm OID for AES-192-CBC (see `ID_AES128`). -/
def ID_AES192 : String := "2.16.840.1.101.3.4.1.22"

/-- Algorithm OID for AES-256-CBC (see `ID_AES128`). -/
def ID_AES256 : String := "2.16.840.1.101.3.4.1.42"

/-- `H235CryptoEngine` state.  The two `EVP_CIPHER_CTX` pointers are
modelled as context values (a placeholder value stands for the NULL pointer
before `SetKey`; no modelled operation reads it while uninitialised, except
`DecryptInPlace`, which in the source performs no initialisation check).
This embedding takes the `H323_H235_AES256` build configuration, in which
all three AES variants are compiled in. -/
structure H235CryptoEngine where
  m_algorithmOID : String
  m_initialised : Bool
  m_operationCnt : Nat
  m_enc_blockSize : Nat
  m_enc_ivLength : Nat
  m_dec_blockSize : Nat
  m_dec_ivLength : Nat
  m_encryptCtx : EvpCtx
  m_decryptCtx : EvpCtx
  m_encryptHelper : H235CryptoHelper
  m_decryptHelper : H235CryptoHelper
deriving Repr, DecidableEq

/-- The `H235CryptoEngine(algorithmOID)` constructor (lines 457-462):
contexts unallocated, sizes zero, not initialised. -/
def mkH235CryptoEngine (algorithmOID : String) : H235CryptoEngine :=
  { m_algorithmOID := algorithmOID
    m_initialised := false
    m_operationCnt := 0
    m_enc_blockSize := 0
    m_enc_ivLength := 0
    m_dec_blockSize := 0
    m_dec_ivLength := 0
    m_encryptCtx := { iv := [], padding := true, buf := [], encrypt := true }
    m_decryptCtx := { iv := [], padding := true, buf := [], encrypt := false }
    m_encryptHelper := mkH235CryptoHelper
    m_decryptHelper := mkH235CryptoHelper }

/-- `H235CryptoEngine::SetKey` (lines 480-541): an unsupported algorithm OID
returns before touching any state; otherwise both contexts are (re)created
for AES-CBC with the key installed and a null IV placeholder, the block and
IV sizes (always 16 for AES-CBC) are recorded, both helpers are reset and
the engine is marked initialised.  The key itself only determines the
abstract block permutations, which the operations receive as parameters. -/
def SetKey (eng : H235CryptoEngine) (_key : List Nat) : H235CryptoEngine :=
  if eng.m_algorithmOID = ID_AES128 ∨ eng.m_algorithmOID = ID_AES192 ∨
      eng.m_algorithmOID = ID_AES256 then
    { eng with
      m_initialised := true
      m_operationCnt := 0
      m_enc_blockSize := 16
      m_enc_ivLength := 16
      m_encryptCtx := { iv := List.replicate 16 0, padding := true, buf := [],
                        encrypt := true }
      m_encryptHelper := Reset eng.m_encryptHelper
      m_dec_blockSize := 16
      m_dec_ivLength := 16
      m_decryptCtx := { iv := List.replicate 16 0, padding := true, buf := [],
                        encrypt := false }
      m_decryptHelper := Reset eng.m_decryptHelper }
  else eng

/-- `H235CryptoEngine::SetIV` (lines 543-557): tile the 6-byte seed into the
IV buffer — `ivLen / 6` full copies followed by the first `ivLen mod 6`
seed bytes; a missing seed yields an all-zero IV. -/
def SetIV (ivSequence : Option (List Nat)) (ivLen : Nat) : List Nat :=
  match ivSequence with
  | some s =>
      (List.replicate (ivLen / IV_SEQUENCE_LEN) (s.take IV_SEQUENCE_LEN)).flatten
        ++ s.take (ivLen % IV_SEQUENCE_LEN)
  | none => List.replicate ivLen 0

/-- `H235CryptoEngine::Encrypt` (lines 559-606): returns empty while
uninitialised (the caller's padding flag untouched); otherwise re-inits the
encrypt context with the tiled IV, resets the helper, sets
`rtpPadding = (len mod blockSize > 0)`, enables EVP padding accordingly, and
runs either the (unreachable) CTS pair or the standard EVP update/final
pair, concatenating their output.  Returns (ciphertext, padding flag out,
engine after). -/
def Encrypt (E D : List Nat → List Nat) (eng : H235CryptoEngine)
    (data : List Nat) (ivSequence : Option (List Nat)) (rtpPadding : Bool) :
    List Nat × Bool × H235CryptoEngine :=
  if eng.m_initialised = false then ([], rtpPadding, eng)
  else
    let iv := SetIV ivSequence eng.m_enc_ivLength
    let pad := decide (0 < data.length % eng.m_enc_blockSize)
    let ctx0 : EvpCtx := { iv := iv, padding := pad, buf := [], encrypt := true }
    let h0 := Reset eng.m_encryptHelper
    if pad = false ∧ 0 < data.length % eng.m_enc_blockSize then
      let r := EncryptUpdateCTS E D ctx0 h0 data
      match EncryptFinalCTS E D r.2.2 r.2.1 with
      | some fo =>
          (r.1 ++ fo.1, pad,
           { eng with m_encryptCtx := fo.2, m_encryptHelper := r.2.1,
                      m_operationCnt := eng.m_operationCnt + 1 })
      | none =>
          (r.1, pad,
           { eng with m_encryptCtx := r.2.2, m_encryptHelper := r.2.1,
                      m_operationCnt := eng.m_operationCnt + 1 })
    else
      let r := EVP_EncryptUpdate E ctx0 data
      match EVP_EncryptFinal E r.2 with
      | some fo =>
          (r.1 ++ fo.1, pad,
           { eng with m_encryptCtx := fo.2, m_encryptHelper := h0,
                      m_operationCnt := eng.m_operationCnt + 1 })
      | none =>
          (r.1, pad,
           { eng with m_encryptCtx := r.2, m_encryptHelper := h0,
                      m_operationCnt := eng.m_operationCnt + 1 })

/-- `H235CryptoEngine::EncryptInPlace` (lines 608-648): while uninitialised
it zeroes `inLength` output bytes and returns `inLength`; otherwise the same
algorithm as `Encrypt`, writing into the caller's buffer and returning the
byte count.  Result: (bytes written, return value, padding flag out, engine
after). -/
def EncryptInPlace (E D : List Nat → List Nat) (eng : H235CryptoEngine)
    (inData : List Nat) (ivSequence : Option (List Nat)) (rtpPadding : Bool) :
    List Nat × Nat × Bool × H235CryptoEngine :=
  if eng.m_initialised = false then
    (List.replicate inData.length 0, inData.length, rtpPadding, eng)
  else
    let iv := SetIV ivSequence eng.m_enc_ivLength
    let pad := decide (0 < inData.length % eng.m_enc_blockSize)
    let ctx0 : EvpCtx := { iv := iv, padding := pad, buf := [], encrypt := true }
    let h0 := Reset eng.m_encryptHelper
    if pad = false ∧ 0 < inData.length % eng.m_enc_blockSize then
      let r := EncryptUpdateCTS E D ctx0 h0 inData
      match EncryptFinalCTS E D r.2.2 r.2.1 with
      | some fo =>
          (r.1 ++ fo.1, r.1.length + fo.1.length, pad,
           { eng with m_encryptCtx := fo.2, m_encryptHelper := r.2.1 })
      | none =>
          (r.1, r.1.length, pad,
           { eng with m_encryptCtx := r.2.2, m_encryptHelper := r.2.1 })
    else
      let r := EVP_EncryptUpdate E ctx0 inData
      match EVP_EncryptFinal E r.2 with
      | some fo =>
          (r.1 ++ fo.1, r.1.length + fo.1.length, pad,
           { eng with m_encryptCtx := fo.2, m_encryptHelper := h0 })
      | none =>
          (r.1, r.1.length, pad,
           { eng with m_encryptCtx := r.2, m_encryptHelper := h0 })

/-- `H235CryptoEngine::Decrypt` (lines 650-690): returns empty while
uninitialised (padding flag untouched); otherwise re-inits the decrypt
context with the tiled IV, resets the helper, enables EVP padding iff the
caller's flag is set, runs CTS update/final when the flag is clear and the
length is not block-aligned, and the relaxed update/final pair otherwise.
A failed final contributes no bytes (the update output is still returned).
The caller's padding flag is always reset to false on this path.  Result:
(plaintext, padding flag out, engine after). -/
def Decrypt (E D : List Nat → List Nat) (eng : H235CryptoEngine)
    (data : List Nat) (ivSequence : Option (List Nat)) (rtpPadding : Bool) :
    List Nat × Bool × H235CryptoEngine :=
  if eng.m_initialised = false then ([], rtpPadding, eng)
  else
    let iv := SetIV ivSequence eng.m_dec_ivLength
    let ctx0 : EvpCtx := { iv := iv, padding := rtpPadding, buf := [],
                           encrypt := false }
    let h0 := Reset eng.m_decryptHelper
    if rtpPadding = false ∧ 0 < data.length % eng.m_dec_blockSize then
      let r := DecryptUpdateCTS E D ctx0 h0 data
      match DecryptFinalCTS E D r.2.2 r.2.1 with
      | some fo =>
          (r.1 ++ fo.1, false,
           { eng with m_decryptCtx := fo.2, m_decryptHelper := r.2.1,
                      m_operationCnt := eng.m_operationCnt + 1 })
      | none =>
          (r.1, false,
           { eng with m_decryptCtx := r.2.2, m_decryptHelper := r.2.1,
                      m_operationCnt := eng.m_operationCnt + 1 })
    else
      let r := DecryptUpdate E D ctx0 h0 data
      let fo := (DecryptFinalRelaxed r.2.2 r.2.1).getD []
      (r.1 ++ fo, false,
       { eng with m_decryptCtx := r.2.2, m_decryptHelper := r.2.1,
                  m_operationCnt := eng.m_operationCnt + 1 })

/-- `H235CryptoEngine::DecryptInPlace` (lines 692-727): same algorithm as
`Decrypt` but with no initialisation check, returning 0 as soon as an update
or final stage fails (frame dropped); the padding flag is reset to false
only on full success.  Result: (bytes written, return value, padding flag
out, engine after). -/
def DecryptInPlace (E D : List Nat → List Nat) (eng : H235CryptoEngine)
    (inData : List Nat) (ivSequence : Option (List Nat)) (rtpPadding : Bool) :
    List Nat × Nat × Bool × H235CryptoEngine :=
  let iv := SetIV ivSequence eng.m_dec_ivLength
  let ctx0 : EvpCtx := { iv := iv, padding := rtpPadding, buf := [],
                         encrypt := false }
  let h0 := Reset eng.m_decryptHelper
  if rtpPadding = false ∧ 0 < inData.length % eng.m_dec_blockSize then
    let r := DecryptUpdateCTS E D ctx0 h0 inData
    match DecryptFinalCTS E D r.2.2 r.2.1 with
    | some fo =>
        (r.1 ++ fo.1, r.1.length + fo.1.length, false,
         { eng with m_decryptCtx := fo.2, m_decryptHelper := r.2.1 })
    | none =>
        (r.1, 0, rtpPadding,
         { eng with m_decryptCtx := r.2.2, m_decryptHelper := r.2.1 })
  else
    let r := DecryptUpdate E D ctx0 h0 inData
    match DecryptFinalRelaxed r.2.2 r.2.1 with
    | some fo =>
        (r.1 ++ fo, r.1.length + fo.length, false,
         { eng with m_decryptCtx := r.2.2, m_decryptHelper := r.2.1 })
    | none =>
        (r.1, 0, rtpPadding,
         { eng with m_decryptCtx := r.2.2, m_decryptHelper := r.2.1 })

/-- `H235CryptoEngine::GenerateRandomKey(algorithmOID)` (lines 736-755):
sizes the key at 16 bytes when the `algorithmOID` parameter is AES-128, but
at 24 resp. 32 bytes by comparing the engine field `m_algorithmOID` against
AES-192 resp. AES-256; any other combination yields an empty key.  The
CSPRNG (`RAND_bytes`) is abstracted as `randomBytes`. -/
def GenerateRandomKeyOID (randomBytes : Nat → List Nat)
    (eng : H235CryptoEngine) (algorithmOID : String) : List Nat :=
  if algorithmOID = ID_AES128 then randomBytes 16
  else if eng.m_algorithmOID = ID_AES192 then randomBytes 24
  else if eng.m_algorithmOID = ID_AES256 then randomBytes 32
  else []

/-- `H235CryptoEngine::GenerateRandomKey()` (lines 729-734): generates a key
for the engine's own algorithm and installs it via `SetKey`. -/
def GenerateRandomKey (randomBytes : Nat → List Nat)
    (eng : H235CryptoEngine) : List Nat × H235CryptoEngine :=
  let result := GenerateRandomKeyOID randomBytes eng eng.m_algorithmOID
  (result, SetKey eng result)

/-- `H235Session` state (lines 759-776 and members): the media engine, the
key-wrapping engine, the master/initialised flags, the wrapped media key and
the derived-key length.  The Diffie-Hellman object is external; its computed
session key is passed to `CreateSession` as a parameter. -/
structure H235Session where
  m_context : H235CryptoEngine
  m_dhcontext : H235CryptoEngine
  m_isInitialised : Bool
  m_isMaster : Bool
  m_crytoMasterKey : List Nat
  m_frameBuffer : List Nat
  m_padding : Bool
  m_dhkeyLen : Nat
deriving Repr, DecidableEq

/-- The `H235Session` constructor (lines 759-776): both engines bound to the
negotiated OID, flags clear, key length 16/24/32 by OID (16 for an unknown
OID), a 1500-byte frame buffer. -/
def mkH235Session (oidAlgorithm : String) : H235Session :=
  { m_context := mkH235CryptoEngine oidAlgorithm
    m_dhcontext := mkH235CryptoEngine oidAlgorithm
    m_isInitialised := false
    m_isMaster := false
    m_crytoMasterKey := []
    m_frameBuffer := List.replicate 1500 0
    m_padding := false
    m_dhkeyLen :=
      if oidAlgorithm = ID_AES128 then 16
      else if oidAlgorithm = ID_AES192 then 24
      else if oidAlgorithm = ID_AES256 then 32
      else 16 }

/-- `H235Session::CreateSession` (lines 820-839): refuse (returning false,
state untouched) when already initialised; otherwise record the master flag,
install the trailing `m_dhkeyLen` bytes of the DH session key into the
key-wrapping engine, generate and install a random media key when master,
and mark the session initialised. -/
def CreateSession (randomBytes : Nat → List Nat) (dhSessionkey : List Nat)
    (s : H235Session) (isMaster : Bool) : Bool × H235Session :=
  if s.m_isInitialised then (false, s)
  else
    let shortSessionKey :=
      dhSessionkey.drop (dhSessionkey.length - s.m_dhkeyLen)
    let s1 := { s with m_isMaster := isMaster,
                       m_dhcontext := SetKey s.m_dhcontext shortSessionKey }
    let s2 :=
      if isMaster then
        let r := GenerateRandomKey randomBytes s1.m_context
        { s1 with m_crytoMasterKey := r.1, m_context := r.2 }
      else s1
    (true, { s2 with m_isInitialised := true })

lemma length_xorBytes (a b : List Nat) :
    (xorBytes a b).length = min a.length b.length := by
  simp [xorBytes]


lemma xorBytes_cancel (a b : List Nat) (hab : a.length = b.length) :
    xorBytes (xorBytes a b) a = b := by
  induction a generalizing b with
  | nil =>
      cases b with
      | nil => rfl
      | cons y ys => simp at hab
  | cons x xs ih =>
      cases b with
      | nil => simp at hab
      | cons y ys =>
          have hlen : xs.length = ys.length := by simpa using hab
          simp only [xorBytes, List.zipWith_cons_cons]
          refine List.cons_eq_cons.mpr ⟨?_, ih ys hlen⟩
          show (x ^^^ y) ^^^ x = y
          rw [Nat.xor_comm x y, Nat.xor_assoc, Nat.xor_self, Nat.xor_zero]

lemma cbcEncAux_fuel (E : List Nat → List Nat) :
    ∀ f iv l, l.length ≤ f → cbcEncAux E f iv l = cbcEncAux E l.length iv l := by
  intro f
  induction f using Nat.strong_induction_on with
  | _ f ih =>
    intro iv l hf
    match f, l with
    | 0, l =>
        have : l = [] := List.eq_nil_of_length_eq_zero (by omega)
        subst this
        rfl
    | Nat.succ f, [] => rfl
    | Nat.succ f, x :: xs =>
        have hl : x :: xs ≠ [] := by simp
        simp only [cbcEncAux, if_neg hl, List.length_cons]
        have hf2 : xs.length ≤ f := by
          simp only [List.length_cons] at hf
          omega
        have hd : ((x :: xs).drop 16).length ≤ xs.length := by
          simp [List.length_drop]
        rw [ih f (by omega) _ _ (le_trans hd hf2),
            ih xs.length (by omega) _ _ hd]

lemma cbcDecAux_fuel (D : List Nat → List Nat) :
    ∀ f iv l, l.length ≤ f → cbcDecAux D f iv l = cbcDecAux D l.length iv l := by
  intro f
  induction f using Nat.strong_induction_on with
  | _ f ih =>
    intro iv l hf
    match f, l with
    | 0, l =>
        have : l = [] := List.eq_nil_of_length_eq_zero (by omega)
        subst this
        rfl
    | Nat.succ f, [] => rfl
    | Nat.succ f, x :: xs =>
        have hl : x :: xs ≠ [] := by simp
        simp only [cbcDecAux, if_neg hl, List.length_cons]
        have hf2 : xs.length ≤ f := by
          simp only [List.length_cons] at hf
          omega
        have hd : ((x :: xs).drop 16).length ≤ xs.length := by
          simp [List.length_drop]
        rw [ih f (by omega) _ _ (le_trans hd hf2),
            ih xs.length (by omega) _ _ hd]

lemma cbcEncFlat_nil (E : List Nat → List Nat) (iv : List Nat) :
    cbcEncFlat E iv [] = ([], iv) := rfl

lemma cbcDecFlat_nil (D : List Nat → List Nat) (iv : List Nat) :
    cbcDecFlat D iv [] = ([], iv) := rfl

lemma cbcEncFlat_block (E : List Nat → List Nat) (iv blk rest : List Nat)
    (hb : blk.length = 16) :
    cbcEncFlat E iv (blk ++ rest) =
      ((E (xorBytes iv blk)) ++ (cbcEncFlat E (E (xorBytes iv blk)) rest).1,
       (cbcEncFlat E (E (xorBytes iv blk)) rest).2) := by
  have hne : blk ++ rest ≠ [] := by
    intro hcon
    have := congrArg List.length hcon
    simp [hb] at this
  have hlen : (blk ++ rest).length = 15 + rest.length + 1 := by
    simp [hb]; omega
  have htake : (blk ++ rest).take 16 = blk := by
    rw [← hb]; exact List.take_left blk rest
  have hdrop : (blk ++ rest).drop 16 = rest := by
    rw [← hb]; exact List.drop_left blk rest
  simp only [cbcEncFlat, hlen, cbcEncAux, if_neg hne, htake, hdrop]
  rw [cbcEncAux_fuel E (15 + rest.length) _ rest (by omega)]

lemma cbcDecFlat_block (D : List Nat → List Nat) (iv blk rest : List Nat)
    (hb : blk.length = 16) :
    cbcDecFlat D iv (blk ++ rest) =
      (xorBytes (D blk) iv ++ (cbcDecFlat D blk rest).1,
       (cbcDecFlat D blk rest).2) := by
  have hne : blk ++ rest ≠ [] := by
    intro hcon
    have := congrArg List.length hcon
    simp [hb] at this
  have hlen : (blk ++ rest).length = 15 + rest.length + 1 := by
    simp [hb]; omega
  have htake : (blk ++ rest).take 16 = blk := by
    rw [← hb]; exact List.take_left blk rest
  have hdrop : (blk ++ rest).drop 16 = rest := by
    rw [← hb]; exact List.drop_left blk rest
  simp only [cbcDecFlat, hlen, cbcDecAux, if_neg hne, htake, hdrop]
  rw [cbcDecAux_fuel D (15 + rest.length) _ rest (by omega)]

lemma cbcEncFlat_spec (E : List Nat → List Nat)
    (hE : ∀ b : List Nat, b.length = 16 → (E b).length = 16) :
    ∀ n (iv l : List Nat), iv.length = 16 → l.length = 16 * n →
      (cbcEncFlat E iv l).1.length = l.length ∧
      (cbcEncFlat E iv l).2.length = 16 := by
  intro n
  induction n with
  | zero =>
      intro iv l hiv hl
      have : l = [] := List.eq_nil_of_length_eq_zero (by omega)
      subst this
      simp [cbcEncFlat_nil, hiv]
  | succ n ih =>
      intro iv l hiv hl
      have htd := List.take_append_drop 16 l
      have ht : (l.take 16).length = 16 := by
        simp [List.length_take]; omega
      have hx : (xorBytes iv (l.take 16)).length = 16 := by
        rw [length_xorBytes, hiv, ht]
        omega
      have hc : (E (xorBytes iv (l.take 16))).length = 16 := hE _ hx
      have hdl : (l.drop 16).length = 16 * n := by
        simp [List.length_drop]; omega
      have := ih (E (xorBytes iv (l.take 16))) (l.drop 16) hc hdl
      rw [← htd, cbcEncFlat_block E iv _ _ ht]
      constructor
      · simp only [List.length_append, hc, this.1]
        simp only [List.length_drop, List.length_take]
        omega
      · exact this.2

lemma cbcDecFlat_spec (D : List Nat → List Nat)
    (hD : ∀ b : List Nat, b.length = 16 → (D b).length = 16) :
    ∀ n (iv l : List Nat), iv.length = 16 → l.length = 16 * n →
      (cbcDecFlat D iv l).1.length = l.length ∧
      (cbcDecFlat D iv l).2.length = 16 := by
  intro n
  induction n with
  | zero =>
      intro iv l hiv hl
      have : l = [] := List.eq_nil_of_length_eq_zero (by omega)
      subst this
      simp [cbcDecFlat_nil, hiv]
  | succ n ih =>
      intro iv l hiv hl
      have htd := List.take_append_drop 16 l
      have ht : (l.take 16).length = 16 := by
        simp [List.length_take]; omega
      have hp : (xorBytes (D (l.take 16)) iv).length = 16 := by
        rw [length_xorBytes, hiv, hD _ ht]
        omega
      have hdl : (l.drop 16).length = 16 * n := by
        simp [List.length_drop]; omega
      have := ih (l.take 16) (l.drop 16) ht hdl
      rw [← htd, cbcDecFlat_block D iv _ _ ht]
      constructor
      · simp only [List.length_append, hp, this.1]
        simp only [List.length_drop, List.length_take]
        omega
      · exact this.2

lemma cbcEncFlat_append (E : List Nat → List Nat) :
    ∀ n (iv a b : List Nat), a.length = 16 * n →
      cbcEncFlat E iv (a ++ b) =
        ((cbcEncFlat E iv a).1 ++ (cbcEncFlat E (cbcEncFlat E iv a).2 b).1,
         (cbcEncFlat E (cbcEncFlat E iv a).2 b).2) := by
  intro n
  induction n with
  | zero =>
      intro iv a b ha
      have : a = [] := List.eq_nil_of_length_eq_zero (by omega)
      subst this
      simp [cbcEncFlat_nil]
  | succ n ih =>
      intro iv a b ha
      have htd := List.take_append_drop 16 a
      have ht : (a.take 16).length = 16 := by
        simp [List.length_take]; omega
      have hdl : (a.drop 16).length = 16 * n := by
        simp [List.length_drop]; omega
      have hassoc : a ++ b = a.take 16 ++ (a.drop 16 ++ b) := by
        rw [← List.append_assoc, htd]
      rw [hassoc, cbcEncFlat_block E iv _ _ ht,
          ih _ (a.drop 16) b hdl, ← htd, cbcEncFlat_block E iv _ _ ht]
      simp [List.append_assoc]

lemma cbc_roundtrip (E D : List Nat → List Nat) (hg : GoodCipher E D) :
    ∀ n (iv l : List Nat), iv.length = 16 → l.length = 16 * n →
      (cbcDecFlat D iv (cbcEncFlat E iv l).1).1 = l := by
  intro n
  induction n with
  | zero =>
      intro iv l hiv hl
      have : l = [] := List.eq_nil_of_length_eq_zero (by omega)
      subst this
      simp [cbcEncFlat_nil, cbcDecFlat_nil]
  | succ n ih =>
      intro iv l hiv hl
      have htd := List.take_append_drop 16 l
      have ht : (l.take 16).length = 16 := by
        simp [List.length_take]; omega
      have hx : (xorBytes iv (l.take 16)).length = 16 := by
        rw [length_xorBytes, hiv, ht]
        omega
      have hc : (E (xorBytes iv (l.take 16))).length = 16 := hg.1 _ hx
      have hdl : (l.drop 16).length = 16 * n := by
        simp [List.length_drop]; omega
      rw [← htd, cbcEncFlat_block E iv _ _ ht, cbcDecFlat_block D iv _ _ hc]
      have hinv : D (E (xorBytes iv (l.take 16))) = xorBytes iv (l.take 16) :=
        hg.2.2 _ hx
      rw [hinv, xorBytes_cancel iv (l.take 16) (by omega),
          ih (E (xorBytes iv (l.take 16))) (l.drop 16) hc hdl]

lemma SetIV_some_eq (s : List Nat) (hs : s.length = 6) :
    SetIV (some s) 16 = s ++ s ++ s.take 4 := by
  have ht : s.take 6 = s := by
    rw [← hs]
    exact List.take_length s
  simp only [SetIV, IV_SEQUENCE_LEN]
  norm_num
  rw [List.replicate, List.replicate, List.replicate, List.flatten, List.flatten,
      List.flatten, ht, List.append_nil, List.append_assoc]

lemma SetIV_some_length (s : List Nat) (hs : s.length = 6) :
    (SetIV (some s) 16).length = 16 := by
  rw [SetIV_some_eq s hs]
  simp [List.length_take]
  omega

lemma SetIV_none_eq (ivLen : Nat) : SetIV none ivLen = List.replicate ivLen 0 := rfl

/-- The net PKCS#7 filler appended by the EVP final stage under the engine's
padding policy (padding enabled exactly when the length is not
block-aligned): empty for aligned data, otherwise `16 - len mod 16` copies
of that same value. -/
def padBytes (data : List Nat) : List Nat :=
  if data.length % 16 = 0 then []
  else List.replicate (16 - data.length % 16) (16 - data.length % 16)

lemma EVP_Cipher_nil (E D : List Nat → List Nat) (ctx : EvpCtx) :
    EVP_Cipher E D ctx [] = ([], ctx) := by
  unfold EVP_Cipher
  split <;> rfl

lemma EVP_Cipher_dec (E D : List Nat → List Nat) (ctx : EvpCtx)
    (hdir : ctx.encrypt = false) (inp : List Nat) :
    EVP_Cipher E D ctx inp =
      ((cbcDecFlat D ctx.iv inp).1, { ctx with iv := (cbcDecFlat D ctx.iv inp).2 }) := by
  unfold EVP_Cipher
  rw [if_neg (by rw [hdir]; exact Bool.false_ne_true)]

/-- The standard (non-CTS) encrypt path of `H235CryptoEngine::Encrypt`:
output, padding flag, and preservation of the decrypt-side fields. -/
lemma Encrypt_std (E D : List Nat → List Nat) (eng : H235CryptoEngine)
    (data : List Nat) (ivSequence : Option (List Nat)) (pad0 : Bool)
    (hinit : eng.m_initialised = true)
    (hbs : eng.m_enc_blockSize = 16) (hivl : eng.m_enc_ivLength = 16) :
    (Encrypt E D eng data ivSequence pad0).1 =
        (cbcEncFlat E (SetIV ivSequence 16) (data ++ padBytes data)).1
  ∧ (Encrypt E D eng data ivSequence pad0).2.1 =
        decide (0 < data.length % 16)
  ∧ (Encrypt E D eng data ivSequence pad0).2.2.m_initialised = eng.m_initialised
  ∧ (Encrypt E D eng data ivSequence pad0).2.2.m_dec_blockSize = eng.m_dec_blockSize
  ∧ (Encrypt E D eng data ivSequence pad0).2.2.m_dec_ivLength = eng.m_dec_ivLength := by
  have hini : ¬ eng.m_initialised = false := by simp [hinit]
  rcases Nat.eq_zero_or_pos (data.length % 16) with hr | hr
  · -- block-aligned: padding disabled, final stage contributes nothing
    have hpad : decide (0 < data.length % 16) = false := by simp [hr]
    unfold Encrypt
    rw [if_neg hini]
    simp only [hbs, hivl, hpad]
    rw [if_neg (by simp [hr])]
    simp only [EVP_EncryptUpdate, List.nil_append, hr, Nat.sub_zero,
               List.take_length, List.drop_length]
    simp only [EVP_EncryptFinal, List.length_nil, ne_eq, not_true_eq_false,
               if_false, if_true]
    simp only [padBytes, if_pos hr, List.append_nil]
    norm_num
  · -- unaligned: padding enabled, final stage emits the padded block
    have hpad : decide (0 < data.length % 16) = true := by simp [hr]
    have htk : (data.take (data.length - data.length % 16)).length
        = data.length - data.length % 16 := by
      simp [List.length_take]
    have hdk : (data.drop (data.length - data.length % 16)).length
        = data.length % 16 := by
      simp [List.length_drop]
      omega
    unfold Encrypt
    rw [if_neg hini]
    simp only [hbs, hivl, hpad]
    rw [if_neg (by simp)]
    simp only [EVP_EncryptUpdate, List.nil_append, EVP_EncryptFinal]
    rw [if_neg (by simp)]
    simp only [hdk]
    have hsplit : data ++ padBytes data =
        data.take (data.length - data.length % 16)
          ++ (data.drop (data.length - data.length % 16) ++ padBytes data) := by
      rw [← List.append_assoc, List.take_append_drop]
    have happ := cbcEncFlat_append E ((data.length - data.length % 16) / 16)
      (SetIV ivSequence 16) (data.take (data.length - data.length % 16))
      (data.drop (data.length - data.length % 16) ++ padBytes data)
      (by rw [htk]; omega)
    rw [hsplit, happ]
    simp only [padBytes]
    rw [if_neg (by omega)]
    norm_num

/-- `DecryptUpdate` with padding disabled on a block-aligned input from an
empty staging buffer deciphers everything in one block pass. -/
lemma DecryptUpdate_nopad (E D : List Nat → List Nat) (ctx : EvpCtx)
    (h : H235CryptoHelper) (c : List Nat)
    (hdir : ctx.encrypt = false) (hpad : ctx.padding = false)
    (hbuf : h.buf = []) (hc : c.length % 16 = 0) :
    DecryptUpdate E D ctx h c =
      ((cbcDecFlat D ctx.iv c).1, h,
       { ctx with iv := (cbcDecFlat D ctx.iv c).2 }) := by
  by_cases hnil : c = []
  · subst hnil
    simp [DecryptUpdate, cbcDecFlat_nil]
  · have hlen : ¬ c.length = 0 := by
      simpa [List.length_eq_zero] using hnil
    unfold DecryptUpdate
    rw [if_neg hlen, if_pos hpad]
    unfold EncryptUpdate
    rw [if_neg hlen, if_pos (by rw [hbuf]; exact ⟨rfl, hc⟩)]
    rw [EVP_Cipher_dec E D ctx hdir c]

/-- `DecryptUpdate` with padding enabled on a nonempty block-aligned input
from a reset helper: deciphers everything, emits all but the last block and
withholds that block in `final_buf`. -/
lemma DecryptUpdate_padded (E D : List Nat → List Nat) (ctx : EvpCtx)
    (h : H235CryptoHelper) (c : List Nat)
    (hdir : ctx.encrypt = false) (hpad : ctx.padding = true)
    (hbuf : h.buf = []) (hfin : h.final_used = false)
    (hc : c.length % 16 = 0) (hnil : c ≠ [])
    (hplen : (cbcDecFlat D ctx.iv c).1.length = c.length) :
    DecryptUpdate E D ctx h c =
      ((cbcDecFlat D ctx.iv c).1.take (c.length - 16),
       { buf := [], final_buf := (cbcDecFlat D ctx.iv c).1.drop (c.length - 16),
         final_used := true },
       { ctx with iv := (cbcDecFlat D ctx.iv c).2 }) := by
  have hlen : ¬ c.length = 0 := by
    simpa [List.length_eq_zero] using hnil
  unfold DecryptUpdate
  rw [if_neg hlen, if_neg (by rw [hpad]; simp)]
  have hinner : EncryptUpdate E D ctx h c =
      ((cbcDecFlat D ctx.iv c).1, h,
       { ctx with iv := (cbcDecFlat D ctx.iv c).2 }) := by
    unfold EncryptUpdate
    rw [if_neg hlen, if_pos (by rw [hbuf]; exact ⟨rfl, hc⟩)]
    rw [EVP_Cipher_dec E D ctx hdir c]
  rw [hinner]
  simp only [hfin, hbuf, if_false, List.length_nil, List.nil_append,
             Bool.false_eq_true, if_pos rfl, hplen]
  rw [if_pos trivial]

/-- `DecryptUpdate` with padding enabled on an input that is not
block-aligned, from a reset helper: deciphers the full blocks, leaves the
remainder staged (so the relaxed final will fail) and withholds nothing. -/
lemma DecryptUpdate_misaligned (E D : List Nat → List Nat) (ctx : EvpCtx)
    (h : H235CryptoHelper) (c : List Nat)
    (hdir : ctx.encrypt = false) (hpad : ctx.padding = true)
    (hbuf : h.buf = []) (hfin : h.final_used = false)
    (hc : c.length % 16 ≠ 0) :
    DecryptUpdate E D ctx h c =
      ((cbcDecFlat D ctx.iv (c.take (c.length - c.length % 16))).1,
       { buf := c.drop (c.length - c.length % 16), final_buf := h.final_buf,
         final_used := false },
       { ctx with
         iv := (cbcDecFlat D ctx.iv (c.take (c.length - c.length % 16))).2 }) := by
  have hlen : ¬ c.length = 0 := by
    intro hcon
    rw [hcon] at hc
    exact hc rfl
  have hdlen : (c.drop (c.length - c.length % 16)).length = c.length % 16 := by
    simp [List.length_drop]
    omega
  unfold DecryptUpdate
  rw [if_neg hlen, if_neg (by rw [hpad]; simp)]
  have hinner : EncryptUpdate E D ctx h c =
      ((cbcDecFlat D ctx.iv (c.take (c.length - c.length % 16))).1,
       { h with buf := c.drop (c.length - c.length % 16) },
       { ctx with
         iv := (cbcDecFlat D ctx.iv (c.take (c.length - c.length % 16))).2 }) := by
    unfold EncryptUpdate
    rw [if_neg hlen, if_neg (by rw [hbuf]; simp [hc]),
        if_neg (by rw [hbuf]; simp),
        if_neg (show ¬ h.buf.length ≠ 0 by rw [hbuf]; simp)]
    simp only []
    rcases Nat.eq_zero_or_pos (c.length - c.length % 16) with hfull | hfull
    · rw [if_neg (by omega), hfull]
      simp [cbcDecFlat_nil]
    · rw [if_pos hfull, EVP_Cipher_dec E D ctx hdir _]
      simp
  rw [hinner]
  simp only [hfin, if_false, hdlen, List.nil_append, Bool.false_eq_true]
  rw [if_neg (by simpa [hdlen] using hc)]

/-- `H235CryptoEngine::Decrypt` on the non-CTS path, written as the helper
composition it performs. -/
lemma Decrypt_relaxed (E D : List Nat → List Nat) (eng : H235CryptoEngine)
    (data : List Nat) (ivSequence : Option (List Nat)) (rtpPadding : Bool)
    (hinit : eng.m_initialised = true)
    (hbs : eng.m_dec_blockSize = 16) (hivl : eng.m_dec_ivLength = 16)
    (hguard : ¬(rtpPadding = false ∧ 0 < data.length % 16)) :
    Decrypt E D eng data ivSequence rtpPadding =
      ((DecryptUpdate E D
          { iv := SetIV ivSequence 16, padding := rtpPadding, buf := [],
            encrypt := false } (Reset eng.m_decryptHelper) data).1 ++
        (DecryptFinalRelaxed
          (DecryptUpdate E D
            { iv := SetIV ivSequence 16, padding := rtpPadding, buf := [],
              encrypt := false } (Reset eng.m_decryptHelper) data).2.2
          (DecryptUpdate E D
            { iv := SetIV ivSequence 16, padding := rtpPadding, buf := [],
              encrypt := false } (Reset eng.m_decryptHelper) data).2.1).getD [],
       false,
       { eng with
         m_decryptCtx :=
           (DecryptUpdate E D
             { iv := SetIV ivSequence 16, padding := rtpPadding, buf := [],
               encrypt := false } (Reset eng.m_decryptHelper) data).2.2
         m_decryptHelper :=
           (DecryptUpdate E D
             { iv := SetIV ivSequence 16, padding := rtpPadding, buf := [],
               encrypt := false } (Reset eng.m_decryptHelper) data).2.1
         m_operationCnt := eng.m_operationCnt + 1 }) := by
  unfold Decrypt
  rw [if_neg (by simp [hinit])]
  simp only [hbs, hivl]
  rw [if_neg hguard]

/-- `H235CryptoEngine::DecryptInPlace` on the non-CTS path returns 0 exactly
when the relaxed final fails, and the concatenated output length
otherwise. -/
lemma DecryptInPlace_relaxed (E D : List Nat → List Nat)
    (eng : H235CryptoEngine) (inData : List Nat)
    (ivSequence : Option (List Nat)) (rtpPadding : Bool)
    (hbs : eng.m_dec_blockSize = 16) (hivl : eng.m_dec_ivLength = 16)
    (hguard : ¬(rtpPadding = false ∧ 0 < inData.length % 16)) :
    (DecryptInPlace E D eng inData ivSequence rtpPadding).2.1 =
      (match DecryptFinalRelaxed
          (DecryptUpdate E D
            { iv := SetIV ivSequence 16, padding := rtpPadding, buf := [],
              encrypt := false } (Reset eng.m_decryptHelper) inData).2.2
          (DecryptUpdate E D
            { iv := SetIV ivSequence 16, padding := rtpPadding, buf := [],
              encrypt := false } (Reset eng.m_decryptHelper) inData).2.1 with
       | some fo =>
          (DecryptUpdate E D
            { iv := SetIV ivSequence 16, padding := rtpPadding, buf := [],
              encrypt := false } (Reset eng.m_decryptHelper) inData).1.length
            + fo.length
       | none => 0) := by
  unfold DecryptInPlace
  simp only [hbs, hivl]
  rw [if_neg hguard]
  cases hfo : DecryptFinalRelaxed
      (DecryptUpdate E D
        { iv := SetIV ivSequence 16, padding := rtpPadding, buf := [],
          encrypt := false } (Reset eng.m_decryptHelper) inData).2.2
      (DecryptUpdate E D
        { iv := SetIV ivSequence 16, padding := rtpPadding, buf := [],
          encrypt := false } (Reset eng.m_decryptHelper) inData).2.1 with
  | none => simp
  | some fo => simp

lemma getD_append_replicate (A : List Nat) (n : Nat)
    (hA : A.length = 16 - n) (h1 : 1 ≤ n) (h16 : n ≤ 16) :
    (A ++ List.replicate n n).getD 15 0 = n := by
  have hge : A.length ≤ 15 := by omega
  have hrep : (15 - A.length) < n := by omega
  rw [List.getD_append_right _ _ _ _ hge]
  have : ∀ m k (v d : Nat), k < m → (List.replicate m v).getD k d = v := by
    intro m
    induction m with
    | zero => intro k v d hk; omega
    | succ m ih =>
        intro k v d hk
        cases k with
        | zero => simp [List.replicate]
        | succ k =>
            simp only [List.replicate, List.getD_cons_succ]
            exact ih k v d (by omega)
  exact this n (15 - A.length) n 0 hrep

/-- The identity block permutation, a concrete instance of the cipher
abstraction used to evaluate the theorems on explicit inputs. -/
def idPerm : List Nat → List Nat := fun b => b

lemma goodCipher_idPerm : GoodCipher idPerm idPerm :=
  ⟨fun _ hb => hb, fun _ hb => hb, fun _ _ => rfl⟩

/-- Claim C3: with padding enabled and the preconditions (`buf_len = 0`,
`final_used`) satisfied, `DecryptFinalRelaxed` inspects only the last byte
`n` of the retained block: it fails exactly when `n = 0` or `n > 16`, and
otherwise emits the first `16 - n` bytes of the retained block without
checking the filler bytes, so any retained block with a valid last byte is
accepted. -/
theorem C3_decrypt_final_relaxed (ctx : EvpCtx) (h : H235CryptoHelper)
    (hpad : ctx.padding = true) (hbuf : h.buf = [])
    (hfin : h.final_used = true) :
    (DecryptFinalRelaxed ctx h = none ↔
        (h.final_buf.getD 15 0 = 0 ∨ h.final_buf.getD 15 0 > 16)) ∧
    (¬(h.final_buf.getD 15 0 = 0 ∨ h.final_buf.getD 15 0 > 16) →
        DecryptFinalRelaxed ctx h =
          some (h.final_buf.take (16 - h.final_buf.getD 15 0))) := by
  unfold DecryptFinalRelaxed
  rw [if_neg (by simp [hpad]), if_neg (by simp [hbuf, hfin])]
  constructor
  · constructor
    · intro hnone
      by_contra hcon
      rw [if_neg hcon] at hnone
      exact Option.noConfusion hnone
    · intro hbad
      rw [if_pos hbad]
  · intro hok
    rw [if_neg hok]

theorem C3_witness :
    DecryptFinalRelaxed ⟨List.replicate 16 0, true, [], false⟩
      ⟨[], [0, 1, 2, 3, 4, 5, 6, 7, 8, 9, 10, 255, 255, 255, 255, 5], true⟩ =
      some [0, 1, 2, 3, 4, 5, 6, 7, 8, 9, 10] :=
  ((C3_decrypt_final_relaxed ⟨List.replicate 16 0, true, [], false⟩
      ⟨[], [0, 1, 2, 3, 4, 5, 6, 7, 8, 9, 10, 255, 255, 255, 255, 5], true⟩
      rfl rfl rfl).2 (by decide)).trans (by decide)

/-- Claim C4: for a 6-byte seed `s`, `SetIV` builds exactly
`s ++ s ++ s.take 4` for the 16-byte AES IV, reads no seed byte beyond
index 5 (the output depends only on the first six seed bytes), and writes
16 zero bytes when the seed is absent. -/
theorem C4_set_iv (s : List Nat) (hs : s.length = 6) :
    SetIV (some s) 16 = s ++ s ++ s.take 4
  ∧ (∀ t : List Nat, t.take 6 = s.take 6 → SetIV (some t) 16 = SetIV (some s) 16)
  ∧ SetIV none 16 = List.replicate 16 0 := by
  refine ⟨SetIV_some_eq s hs, ?_, rfl⟩
  intro t ht
  have h4 : t.take 4 = s.take 4 := by
    have := congrArg (List.take 4) ht
    simpa [List.take_take] using this
  simp only [SetIV, IV_SEQUENCE_LEN]
  rw [ht, h4]

theorem C4_witness :
    SetIV (some [10, 11, 12, 13, 14, 15]) 16 =
      [10, 11, 12, 13, 14, 15, 10, 11, 12, 13, 14, 15, 10, 11, 12, 13] :=
  ((C4_set_iv [10, 11, 12, 13, 14, 15] (by decide)).1).trans (by decide)

/-- Claim C6: `GenerateRandomKey(oid)` sizes the key by the `oid` parameter
for AES-128 (16 bytes whenever the parameter is AES-128, whatever the
engine's own algorithm), but for AES-192 and AES-256 it compares the
instance field `m_algorithmOID` instead of the parameter (24 resp. 32
bytes); in every other case it returns an empty key. -/
theorem C6_generate_random_key (randomBytes : Nat → List Nat)
    (hrand : ∀ n, (randomBytes n).length = n)
    (eng : H235CryptoEngine) (oid : String) :
    (oid = ID_AES128 → (GenerateRandomKeyOID randomBytes eng oid).length = 16)
  ∧ (oid ≠ ID_AES128 → eng.m_algorithmOID = ID_AES192 →
       (GenerateRandomKeyOID randomBytes eng oid).length = 24)
  ∧ (oid ≠ ID_AES128 → eng.m_algorithmOID ≠ ID_AES192 →
       eng.m_algorithmOID = ID_AES256 →
       (GenerateRandomKeyOID randomBytes eng oid).length = 32)
  ∧ (oid ≠ ID_AES128 → eng.m_algorithmOID ≠ ID_AES192 →
       eng.m_algorithmOID ≠ ID_AES256 →
       GenerateRandomKeyOID randomBytes eng oid = []) := by
  have hne : ID_AES256 ≠ ID_AES192 := by decide
  refine ⟨?_, ?_, ?_, ?_⟩ <;> intros <;>
    simp [GenerateRandomKeyOID, hrand, hne, *]

theorem C6_witness :
    (GenerateRandomKeyOID (fun n => List.replicate n 7)
       (mkH235CryptoEngine ID_AES256) ID_AES128).length = 16
  ∧ (GenerateRandomKeyOID (fun n => List.replicate n 7)
       (mkH235CryptoEngine ID_AES256) ID_AES192).length = 32 :=
  ⟨(C6_generate_random_key (fun n => List.replicate n 7)
      (fun n => by simp) (mkH235CryptoEngine ID_AES256) ID_AES128).1 rfl,
   (C6_generate_random_key (fun n => List.replicate n 7)
      (fun n => by simp) (mkH235CryptoEngine ID_AES256) ID_AES192).2.2.1
      (by decide) (by decide) rfl⟩

/-- Claim C10: `CreateSession` on an already-initialised session returns
false with every session field unchanged; on an uninitialised session it
sets the initialised flag and returns true. -/
theorem C10_create_session (randomBytes : Nat → List Nat)
    (dhSessionkey : List Nat) (s : H235Session) (isMaster : Bool) :
    (s.m_isInitialised = true →
        CreateSession randomBytes dhSessionkey s isMaster = (false, s))
  ∧ (s.m_isInitialised = false →
        (CreateSession randomBytes dhSessionkey s isMaster).1 = true ∧
        (CreateSession randomBytes dhSessionkey s isMaster).2.m_isInitialised
          = true) := by
  constructor
  · intro hi
    unfold CreateSession
    rw [if_pos hi]
  · intro hi
    unfold CreateSession
    rw [if_neg (by simp [hi])]
    cases isMaster <;> exact ⟨rfl, rfl⟩

theorem C10_witness :
    (CreateSession (fun n => List.replicate n 7) (List.replicate 32 9)
       (mkH235Session ID_AES128) true).1 = true
  ∧ (CreateSession (fun n => List.replicate n 7) (List.replicate 32 9)
       (mkH235Session ID_AES128) true).2.m_isInitialised = true :=
  (C10_create_session (fun n => List.replicate n 7) (List.replicate 32 9)
     (mkH235Session ID_AES128) true).2 rfl

/-- Claim C5 counterexample: on an engine whose OID is unsupported,
`SetKey` indeed leaves it uninitialised, but `EncryptInPlace` then returns
the input length (8 here), not zero as the claim states for the in-place
variants. -/
theorem C5_counterexample :
    (SetKey (mkH235CryptoEngine "1.3.9999") (List.replicate 16 0)).m_initialised
      = false
  ∧ (EncryptInPlace idPerm idPerm
       (SetKey (mkH235CryptoEngine "1.3.9999") (List.replicate 16 0))
       (List.replicate 8 1) none false).2.1 = 8 := by decide

/-- Claim C5 (amended): with an unsupported algorithm OID, `SetKey` leaves
the engine completely unchanged (hence uninitialised); on an uninitialised
engine the by-value `Encrypt` and `Decrypt` are no-ops returning an empty
buffer with the caller's padding flag untouched, while `EncryptInPlace`
zeroes the output and returns the input length (`DecryptInPlace` performs
no initialisation check at all). -/
theorem C5_unknown_oid (E D : List Nat → List Nat) (eng : H235CryptoEngine)
    (h1 : eng.m_algorithmOID ≠ ID_AES128) (h2 : eng.m_algorithmOID ≠ ID_AES192)
    (h3 : eng.m_algorithmOID ≠ ID_AES256) (h4 : eng.m_initialised = false)
    (key data : List Nat) (ivSequence : Option (List Nat)) (pad : Bool) :
    SetKey eng key = eng
  ∧ Encrypt E D eng data ivSequence pad = ([], pad, eng)
  ∧ Decrypt E D eng data ivSequence pad = ([], pad, eng)
  ∧ EncryptInPlace E D eng data ivSequence pad =
      (List.replicate data.length 0, data.length, pad, eng) := by
  refine ⟨?_, ?_, ?_, ?_⟩
  · unfold SetKey
    rw [if_neg (by simp [h1, h2, h3])]
  · unfold Encrypt
    rw [if_pos h4]
  · unfold Decrypt
    rw [if_pos h4]
  · unfold EncryptInPlace
    rw [if_pos h4]

theorem C5_witness :
    SetKey (mkH235CryptoEngine "1.3.9999") (List.replicate 16 0)
        = mkH235CryptoEngine "1.3.9999"
  ∧ Encrypt idPerm idPerm (mkH235CryptoEngine "1.3.9999") [1, 2, 3] none true
        = ([], true, mkH235CryptoEngine "1.3.9999")
  ∧ Decrypt idPerm idPerm (mkH235CryptoEngine "1.3.9999") [1, 2, 3] none true
        = ([], true, mkH235CryptoEngine "1.3.9999")
  ∧ EncryptInPlace idPerm idPerm (mkH235CryptoEngine "1.3.9999") [1, 2, 3]
        none true = (List.replicate 3 0, 3, true, mkH235CryptoEngine "1.3.9999") :=
  C5_unknown_oid idPerm idPerm (mkH235CryptoEngine "1.3.9999")
    (by decide) (by decide) (by decide) rfl
    (List.replicate 16 0) [1, 2, 3] none true

lemma DecryptFinalRelaxed_fail (ctx : EvpCtx) (h : H235CryptoHelper)
    (hpad : ctx.padding = true)
    (hbad : h.buf.length ≠ 0 ∨ h.final_used = false) :
    DecryptFinalRelaxed ctx h = none := by
  unfold DecryptFinalRelaxed
  rw [if_neg (by simp [hpad]), if_pos hbad]

lemma DecryptFinalRelaxed_nopad (ctx : EvpCtx) (h : H235CryptoHelper)
    (hpad : ctx.padding = false) (hbuf : h.buf = []) :
    DecryptFinalRelaxed ctx h = some [] := by
  unfold DecryptFinalRelaxed
  rw [if_pos hpad, if_neg (by simp [hbuf])]

lemma DecryptFinalRelaxed_ok (ctx : EvpCtx) (h : H235CryptoHelper)
    (hpad : ctx.padding = true) (hbuf : h.buf = [])
    (hfin : h.final_used = true)
    (hn : ¬(h.final_buf.getD 15 0 = 0 ∨ h.final_buf.getD 15 0 > 16)) :
    DecryptFinalRelaxed ctx h =
      some (h.final_buf.take (16 - h.final_buf.getD 15 0)) := by
  unfold DecryptFinalRelaxed
  rw [if_neg (by simp [hpad]), if_neg (by simp [hbuf, hfin]), if_neg hn]

/-- Claim C2: on an initialised engine, `Encrypt` sets the padding flag to
`len mod 16 ≠ 0`; for block-aligned input the ciphertext is the plain
AES-CBC encryption (no trailing pad block) of exactly the input length, and
for non-aligned input the ciphertext length is `16 * ceil(len/16)`. -/
theorem C2_encrypt_sizing (E D : List Nat → List Nat)
    (hE : ∀ b : List Nat, b.length = 16 → (E b).length = 16)
    (eng : H235CryptoEngine) (hinit : eng.m_initialised = true)
    (hbs : eng.m_enc_blockSize = 16) (hivl : eng.m_enc_ivLength = 16)
    (P S : List Nat) (hS : S.length = 6) (pad0 : Bool) :
    (Encrypt E D eng P (some S) pad0).2.1 = decide (P.length % 16 ≠ 0)
  ∧ (P.length % 16 = 0 →
       (Encrypt E D eng P (some S) pad0).1 =
         (cbcEncFlat E (SetIV (some S) 16) P).1 ∧
       (Encrypt E D eng P (some S) pad0).1.length = P.length)
  ∧ (P.length % 16 ≠ 0 →
       (Encrypt E D eng P (some S) pad0).1.length
         = 16 * ((P.length + 15) / 16)) := by
  obtain ⟨ho, hf, -, -, -⟩ := Encrypt_std E D eng P (some S) pad0 hinit hbs hivl
  refine ⟨?_, ?_, ?_⟩
  · exact hf.trans (decide_eq_decide.mpr (by omega))
  · intro hr
    have hpb : padBytes P = [] := by simp [padBytes, hr]
    refine ⟨by rw [ho, hpb, List.append_nil], ?_⟩
    rw [ho, hpb, List.append_nil]
    exact (cbcEncFlat_spec E hE (P.length / 16) _ P
      (SetIV_some_length S hS) (by omega)).1
  · intro hr
    rw [ho]
    have hpb : (P ++ padBytes P).length = P.length + (16 - P.length % 16) := by
      simp [padBytes, hr]
    have hmod : (P ++ padBytes P).length % 16 = 0 := by
      rw [hpb]
      omega
    have hlen := (cbcEncFlat_spec E hE ((P ++ padBytes P).length / 16)
      (SetIV (some S) 16) (P ++ padBytes P)
      (SetIV_some_length S hS) (by omega)).1
    rw [hlen, hpb]
    omega

theorem C2_witness :
    (Encrypt idPerm idPerm
       (SetKey (mkH235CryptoEngine ID_AES128) (List.replicate 16 0))
       [1, 2, 3] (some [10, 11, 12, 13, 14, 15]) false).2.1 = true
  ∧ (Encrypt idPerm idPerm
       (SetKey (mkH235CryptoEngine ID_AES128) (List.replicate 16 0))
       [1, 2, 3] (some [10, 11, 12, 13, 14, 15]) false).1.length = 16 :=
  ⟨((C2_encrypt_sizing idPerm idPerm (fun _ hb => hb)
      (SetKey (mkH235CryptoEngine ID_AES128) (List.replicate 16 0))
      (by decide) (by decide) (by decide)
      [1, 2, 3] [10, 11, 12, 13, 14, 15] (by decide) false).1).trans (by decide),
   ((C2_encrypt_sizing idPerm idPerm (fun _ hb => hb)
      (SetKey (mkH235CryptoEngine ID_AES128) (List.replicate 16 0))
      (by decide) (by decide) (by decide)
      [1, 2, 3] [10, 11, 12, 13, 14, 15] (by decide) false).2.2 (by decide)).trans
      (by norm_num)⟩

/-- Claim C9 counterexample: on an initialised engine, a 17-byte ciphertext
with `paddingFlag = true` makes the relaxed final stage fail, yet by-value
`Decrypt` returns the 16 deciphered bytes of the full block, not an empty
buffer as the claim states. -/
theorem C9_counterexample :
    (Decrypt idPerm idPerm
       (SetKey (mkH235CryptoEngine ID_AES128) (List.replicate 16 0))
       (List.replicate 17 1) (some [0, 0, 0, 0, 0, 0]) true).1.length = 16 := by
  decide

/-- Claim C9 (amended): on an initialised engine, `Decrypt` with
`paddingFlag = true` on a ciphertext whose length is not a positive multiple
of 16 (in particular the empty ciphertext) makes the relaxed final stage
fail, so by-value `Decrypt` returns exactly the full blocks deciphered by
the update stage — `16·⌊len/16⌋` bytes, empty precisely when the ciphertext
is shorter than one block — and `DecryptInPlace` returns 0; the final stage
can contribute its unpadded block only for ciphertexts that are a nonzero
multiple of the block size. -/
theorem C9_padded_non_multiple (E D : List Nat → List Nat)
    (hg : GoodCipher E D) (eng : H235CryptoEngine)
    (hinit : eng.m_initialised = true)
    (hbs : eng.m_dec_blockSize = 16) (hivl : eng.m_dec_ivLength = 16)
    (S c : List Nat) (hS : S.length = 6)
    (hlen : c.length % 16 ≠ 0 ∨ c.length = 0) :
    (Decrypt E D eng c (some S) true).1 =
        (cbcDecFlat D (SetIV (some S) 16) (c.take (c.length - c.length % 16))).1
  ∧ (Decrypt E D eng c (some S) true).1.length = c.length - c.length % 16
  ∧ (DecryptInPlace E D eng c (some S) true).2.1 = 0 := by
  have hguard : ¬((true : Bool) = false ∧ 0 < c.length % 16) := by simp
  have hD := hg.2.1
  rw [Decrypt_relaxed E D eng c (some S) true hinit hbs hivl hguard]
  have hdec := DecryptInPlace_relaxed E D eng c (some S) true hbs hivl hguard
  rcases hlen with hr | hr
  · -- length not a multiple of 16
    have hupd := DecryptUpdate_misaligned E D
      { iv := SetIV (some S) 16, padding := true, buf := [], encrypt := false }
      (Reset eng.m_decryptHelper) c rfl rfl rfl rfl hr
    have hfail := DecryptFinalRelaxed_fail
      { iv := (cbcDecFlat D (SetIV (some S) 16)
          (c.take (c.length - c.length % 16))).2,
        padding := true, buf := [], encrypt := false }
      { buf := c.drop (c.length - c.length % 16),
        final_buf := (Reset eng.m_decryptHelper).final_buf,
        final_used := false }
      rfl (Or.inl (by simp [List.length_drop]; omega))
    have hplen : (cbcDecFlat D (SetIV (some S) 16)
        (c.take (c.length - c.length % 16))).1.length
        = c.length - c.length % 16 := by
      have := (cbcDecFlat_spec D hD ((c.length - c.length % 16) / 16)
        (SetIV (some S) 16) (c.take (c.length - c.length % 16))
        (SetIV_some_length S hS) (by simp [List.length_take]; omega)).1
      rw [this]
      simp [List.length_take]
    rw [hupd] at hdec ⊢
    simp only [hfail, Option.getD_none, List.append_nil]
    exact ⟨trivial, hplen, by rw [hfail] at hdec; simpa using hdec⟩
  · -- empty ciphertext
    have hc : c = [] := List.eq_nil_of_length_eq_zero hr
    subst hc
    have hupd : DecryptUpdate E D
        { iv := SetIV (some S) 16, padding := true, buf := [],
          encrypt := false } (Reset eng.m_decryptHelper) [] =
        ([], Reset eng.m_decryptHelper,
         { iv := SetIV (some S) 16, padding := true, buf := [],
           encrypt := false }) := rfl
    have hfail := DecryptFinalRelaxed_fail
      { iv := SetIV (some S) 16, padding := true, buf := [], encrypt := false }
      (Reset eng.m_decryptHelper) rfl (Or.inr rfl)
    rw [hupd] at hdec ⊢
    simp only [hfail, Option.getD_none, List.append_nil]
    refine ⟨rfl, by simp, ?_⟩
    rw [hfail] at hdec
    simpa using hdec

theorem C9_witness :
    (Decrypt idPerm idPerm
       (SetKey (mkH235CryptoEngine ID_AES128) (List.replicate 16 0))
       (List.replicate 5 1) (some [0, 0, 0, 0, 0, 0]) true).1 = []
  ∧ (DecryptInPlace idPerm idPerm
       (SetKey (mkH235CryptoEngine ID_AES128) (List.replicate 16 0))
       (List.replicate 5 1) (some [0, 0, 0, 0, 0, 0]) true).2.1 = 0 :=
  ⟨((C9_padded_non_multiple idPerm idPerm goodCipher_idPerm
      (SetKey (mkH235CryptoEngine ID_AES128) (List.replicate 16 0))
      (by decide) (by decide) (by decide)
      [0, 0, 0, 0, 0, 0] (List.replicate 5 1) (by decide)
      (Or.inl (by decide))).1).trans (by decide),
   (C9_padded_non_multiple idPerm idPerm goodCipher_idPerm
      (SetKey (mkH235CryptoEngine ID_AES128) (List.replicate 16 0))
      (by decide) (by decide) (by decide)
      [0, 0, 0, 0, 0, 0] (List.replicate 5 1) (by decide)
      (Or.inl (by decide))).2.2⟩

lemma DecryptFinalRelaxed_badn (ctx : EvpCtx) (h : H235CryptoHelper)
    (hpad : ctx.padding = true) (hbuf : h.buf = [])
    (hfin : h.final_used = true)
    (hn : h.final_buf.getD 15 0 = 0 ∨ h.final_buf.getD 15 0 > 16) :
    DecryptFinalRelaxed ctx h = none := by
  unfold DecryptFinalRelaxed
  rw [if_neg (by simp [hpad]), if_neg (by simp [hbuf, hfin]), if_pos hn]

/-- Claim C7: when relaxed-final unpadding fails because the last retained
byte `n` is 0 or exceeds 16, `DecryptInPlace` returns 0, while by-value
`Decrypt` returns exactly the plaintext already produced by the update calls
(all deciphered bytes except the withheld final block); the failed final
stage contributes zero bytes. -/
theorem C7_padding_error (E D : List Nat → List Nat) (hg : GoodCipher E D)
    (eng : H235CryptoEngine) (hinit : eng.m_initialised = true)
    (hbs : eng.m_dec_blockSize = 16) (hivl : eng.m_dec_ivLength = 16)
    (S c : List Nat) (hS : S.length = 6)
    (hc : c.length % 16 = 0) (hpos : 0 < c.length)
    (hbad : (cbcDecFlat D (SetIV (some S) 16) c).1.getD
        ((cbcDecFlat D (SetIV (some S) 16) c).1.length - 1) 0 = 0 ∨
      (cbcDecFlat D (SetIV (some S) 16) c).1.getD
        ((cbcDecFlat D (SetIV (some S) 16) c).1.length - 1) 0 > 16) :
    (Decrypt E D eng c (some S) true).1 =
        (cbcDecFlat D (SetIV (some S) 16) c).1.take (c.length - 16)
  ∧ (DecryptInPlace E D eng c (some S) true).2.1 = 0 := by
  have hguard : ¬((true : Bool) = false ∧ 0 < c.length % 16) := by simp
  have h16 : 16 ≤ c.length := by omega
  have hplen : (cbcDecFlat D (SetIV (some S) 16) c).1.length = c.length :=
    (cbcDecFlat_spec D hg.2.1 (c.length / 16) (SetIV (some S) 16) c
      (SetIV_some_length S hS) (by omega)).1
  set p := (cbcDecFlat D (SetIV (some S) 16) c).1 with hp
  have hupd := DecryptUpdate_padded E D
    { iv := SetIV (some S) 16, padding := true, buf := [], encrypt := false }
    (Reset eng.m_decryptHelper) c rfl rfl rfl rfl hc
    (by simpa using List.length_pos.mp (by omega)) (by rw [← hp]; exact hplen)
  have hidx : p.length - 1 = (c.length - 16) + 15 := by omega
  have hgd : (p.drop (c.length - 16)).getD 15 0 = p.getD (p.length - 1) 0 := by
    rw [hidx]
    conv_rhs => rw [(List.take_append_drop (c.length - 16) p).symm]
    rw [List.getD_append_right _ _ _ _ (by rw [List.length_take]; omega)]
    congr 1
    rw [List.length_take]
    omega
  have hupd2 : DecryptUpdate E D
      { iv := SetIV (some S) 16, padding := true, buf := [], encrypt := false }
      (Reset eng.m_decryptHelper) c =
      (p.take (c.length - 16),
       { buf := [], final_buf := p.drop (c.length - 16), final_used := true },
       { iv := (cbcDecFlat D (SetIV (some S) 16) c).2, padding := true,
         buf := [], encrypt := false }) := hupd
  have hfail := DecryptFinalRelaxed_badn
    { iv := (cbcDecFlat D (SetIV (some S) 16) c).2, padding := true,
      buf := [], encrypt := false }
    { buf := [], final_buf := p.drop (c.length - 16), final_used := true }
    rfl rfl rfl
    (by
      show (p.drop (c.length - 16)).getD 15 0 = 0 ∨
        (p.drop (c.length - 16)).getD 15 0 > 16
      rw [hgd]
      exact hbad)
  rw [Decrypt_relaxed E D eng c (some S) true hinit hbs hivl hguard]
  have hdec := DecryptInPlace_relaxed E D eng c (some S) true hbs hivl hguard
  rw [hupd2] at hdec ⊢
  simp only [hfail, Option.getD_none, List.append_nil]
  refine ⟨trivial, ?_⟩
  rw [hfail] at hdec
  simpa using hdec

theorem C7_witness :
    (Decrypt idPerm idPerm
       (SetKey (mkH235CryptoEngine ID_AES128) (List.replicate 16 0))
       (List.replicate 16 0) (some [0, 0, 0, 0, 0, 0]) true).1 = []
  ∧ (DecryptInPlace idPerm idPerm
       (SetKey (mkH235CryptoEngine ID_AES128) (List.replicate 16 0))
       (List.replicate 16 0) (some [0, 0, 0, 0, 0, 0]) true).2.1 = 0 :=
  ⟨((C7_padding_error idPerm idPerm goodCipher_idPerm
      (SetKey (mkH235CryptoEngine ID_AES128) (List.replicate 16 0))
      (by decide) (by decide) (by decide)
      [0, 0, 0, 0, 0, 0] (List.replicate 16 0) (by decide)
      (by decide) (by decide) (by decide)).1).trans (by decide),
   (C7_padding_error idPerm idPerm goodCipher_idPerm
      (SetKey (mkH235CryptoEngine ID_AES128) (List.replicate 16 0))
      (by decide) (by decide) (by decide)
      [0, 0, 0, 0, 0, 0] (List.replicate 16 0) (by decide)
      (by decide) (by decide) (by decide)).2⟩

/-- Claim C1: on an initialised engine, for every plaintext, every key
(every pair of inverse block permutations) and every 6-byte IV seed,
decrypting the encryption with the padding flag passed along returns
exactly the original plaintext, and the padding flag is false after the
`Decrypt` call returns. -/
theorem C1_roundtrip (E D : List Nat → List Nat) (hg : GoodCipher E D)
    (eng : H235CryptoEngine) (hinit : eng.m_initialised = true)
    (hebs : eng.m_enc_blockSize = 16) (heiv : eng.m_enc_ivLength = 16)
    (hdbs : eng.m_dec_blockSize = 16) (hdiv : eng.m_dec_ivLength = 16)
    (P S : List Nat) (hS : S.length = 6) (pad0 : Bool) :
    (Decrypt E D (Encrypt E D eng P (some S) pad0).2.2
        (Encrypt E D eng P (some S) pad0).1 (some S)
        (Encrypt E D eng P (some S) pad0).2.1).1 = P
  ∧ (Decrypt E D (Encrypt E D eng P (some S) pad0).2.2
        (Encrypt E D eng P (some S) pad0).1 (some S)
        (Encrypt E D eng P (some S) pad0).2.1).2.1 = false := by
  obtain ⟨ho, hf, hi2, hd2, hd3⟩ := Encrypt_std E D eng P (some S) pad0 hinit hebs heiv
  have hiv : (SetIV (some S) 16).length = 16 := SetIV_some_length S hS
  rcases Nat.eq_zero_or_pos (P.length % 16) with hr | hr
  · -- block-aligned plaintext: no padding on either side
    have hpb : padBytes P = [] := by simp [padBytes, hr]
    have hco : (Encrypt E D eng P (some S) pad0).1 =
        (cbcEncFlat E (SetIV (some S) 16) P).1 := by
      rw [ho, hpb, List.append_nil]
    have hflag : (Encrypt E D eng P (some S) pad0).2.1 = false := by
      rw [hf]
      simp [hr]
    have hclen : (cbcEncFlat E (SetIV (some S) 16) P).1.length = P.length :=
      (cbcEncFlat_spec E hg.1 (P.length / 16) _ P hiv (by omega)).1
    have hguard : ¬((false : Bool) = false ∧
        0 < (cbcEncFlat E (SetIV (some S) 16) P).1.length % 16) := by
      rw [hclen]
      simp [hr]
    rw [hco, hflag,
        Decrypt_relaxed E D _ _ (some S) false (hi2.trans hinit)
          (hd2.trans hdbs) (hd3.trans hdiv) hguard,
        DecryptUpdate_nopad E D _ _ _ rfl rfl rfl (by rw [hclen]; omega),
        DecryptFinalRelaxed_nopad _ _ rfl rfl]
    have hrt := cbc_roundtrip E D hg (P.length / 16) (SetIV (some S) 16) P hiv
      (by omega)
    exact ⟨by simpa using hrt, rfl⟩
  · -- non-aligned plaintext: PKCS#7 pad added, relaxed final strips it
    have hflag : (Encrypt E D eng P (some S) pad0).2.1 = true := by
      rw [hf]
      simp [hr]
    have hpb : padBytes P =
        List.replicate (16 - P.length % 16) (16 - P.length % 16) := by
      simp only [padBytes]
      rw [if_neg (by omega)]
    have hPPmod : (P ++ padBytes P).length % 16 = 0 := by
      rw [hpb]
      simp only [List.length_append, List.length_replicate]
      omega
    have hco : (Encrypt E D eng P (some S) pad0).1 =
        (cbcEncFlat E (SetIV (some S) 16) (P ++ padBytes P)).1 := ho
    have hclen : (cbcEncFlat E (SetIV (some S) 16) (P ++ padBytes P)).1.length
        = (P ++ padBytes P).length :=
      (cbcEncFlat_spec E hg.1 ((P ++ padBytes P).length / 16) _ _ hiv
        (by omega)).1
    have hrt : (cbcDecFlat D (SetIV (some S) 16)
        (cbcEncFlat E (SetIV (some S) 16) (P ++ padBytes P)).1).1
        = P ++ padBytes P :=
      cbc_roundtrip E D hg ((P ++ padBytes P).length / 16) _ _ hiv (by omega)
    have hplen : (cbcDecFlat D (SetIV (some S) 16)
        (cbcEncFlat E (SetIV (some S) 16) (P ++ padBytes P)).1).1.length
        = (cbcEncFlat E (SetIV (some S) 16) (P ++ padBytes P)).1.length := by
      rw [hrt, hclen]
    have hcne : (cbcEncFlat E (SetIV (some S) 16) (P ++ padBytes P)).1 ≠ [] := by
      intro hcon
      have := congrArg List.length hcon
      rw [hclen] at this
      simp only [List.length_nil, List.length_append] at this
      omega
    have hguard : ¬((true : Bool) = false ∧
        0 < (cbcEncFlat E (SetIV (some S) 16) (P ++ padBytes P)).1.length % 16) := by
      simp
    rw [hco, hflag,
        Decrypt_relaxed E D _ _ (some S) true (hi2.trans hinit)
          (hd2.trans hdbs) (hd3.trans hdiv) hguard]
    have hupd := DecryptUpdate_padded E D
      { iv := SetIV (some S) 16, padding := true, buf := [], encrypt := false }
      (Reset (Encrypt E D eng P (some S) pad0).2.2.m_decryptHelper)
      (cbcEncFlat E (SetIV (some S) 16) (P ++ padBytes P)).1
      rfl rfl rfl rfl (by rw [hclen]; exact hPPmod) hcne hplen
    have hupd2 : DecryptUpdate E D
        { iv := SetIV (some S) 16, padding := true, buf := [], encrypt := false }
        (Reset (Encrypt E D eng P (some S) pad0).2.2.m_decryptHelper)
        (cbcEncFlat E (SetIV (some S) 16) (P ++ padBytes P)).1 =
        ((P ++ padBytes P).take
           ((cbcEncFlat E (SetIV (some S) 16) (P ++ padBytes P)).1.length - 16),
         { buf := [],
           final_buf := (P ++ padBytes P).drop
             ((cbcEncFlat E (SetIV (some S) 16) (P ++ padBytes P)).1.length - 16),
           final_used := true },
         { iv := (cbcDecFlat D (SetIV (some S) 16)
             (cbcEncFlat E (SetIV (some S) 16) (P ++ padBytes P)).1).2,
           padding := true, buf := [], encrypt := false }) := by
      rw [hupd, hrt]
    have hk : (cbcEncFlat E (SetIV (some S) 16) (P ++ padBytes P)).1.length - 16
        = P.length - P.length % 16 := by
      rw [hclen, hpb]
      simp only [List.length_append, List.length_replicate]
      omega
    have hdropPP : (P ++ padBytes P).drop (P.length - P.length % 16) =
        P.drop (P.length - P.length % 16) ++ padBytes P := by
      rw [List.drop_append_eq_append_drop]
      have : P.length - P.length % 16 - P.length = 0 := by omega
      rw [this, List.drop_zero]
    have hAlen : (P.drop (P.length - P.length % 16)).length
        = 16 - (16 - P.length % 16) := by
      simp only [List.length_drop]
      omega
    have hgd : ((P ++ padBytes P).drop (P.length - P.length % 16)).getD 15 0
        = 16 - P.length % 16 := by
      rw [hdropPP, hpb]
      exact getD_append_replicate _ _ hAlen (by omega) (by omega)
    have hfin := DecryptFinalRelaxed_ok
      { iv := (cbcDecFlat D (SetIV (some S) 16)
          (cbcEncFlat E (SetIV (some S) 16) (P ++ padBytes P)).1).2,
        padding := true, buf := [], encrypt := false }
      { buf := [],
        final_buf := (P ++ padBytes P).drop (P.length - P.length % 16),
        final_used := true }
      rfl rfl rfl
      (by
        show ¬(((P ++ padBytes P).drop (P.length - P.length % 16)).getD 15 0 = 0
          ∨ ((P ++ padBytes P).drop (P.length - P.length % 16)).getD 15 0 > 16)
        rw [hgd]
        omega)
    have hfin2 : DecryptFinalRelaxed
        { iv := (cbcDecFlat D (SetIV (some S) 16)
            (cbcEncFlat E (SetIV (some S) 16) (P ++ padBytes P)).1).2,
          padding := true, buf := [], encrypt := false }
        { buf := [],
          final_buf := (P ++ padBytes P).drop (P.length - P.length % 16),
          final_used := true } =
        some (P.drop (P.length - P.length % 16)) := by
      rw [hfin]
      show some (((P ++ padBytes P).drop (P.length - P.length % 16)).take
        (16 - ((P ++ padBytes P).drop (P.length - P.length % 16)).getD 15 0)) = _
      rw [hgd, hdropPP, hpb]
      rw [List.take_left' (by rw [hAlen])]
    rw [hupd2, hk]
    simp only [hfin2, Option.getD_some]
    constructor
    · have htP : (P ++ padBytes P).take (P.length - P.length % 16)
          = P.take (P.length - P.length % 16) := by
        rw [List.take_append_eq_append_take]
        have : P.length - P.length % 16 - P.length = 0 := by omega
        rw [this, List.take_zero, List.append_nil]
      rw [htP, List.take_append_drop]
    · trivial

theorem C1_witness :
    (Decrypt idPerm idPerm
        (Encrypt idPerm idPerm
          (SetKey (mkH235CryptoEngine ID_AES128) (List.replicate 16 0))
          [1, 2, 3] (some [10, 11, 12, 13, 14, 15]) false).2.2
        (Encrypt idPerm idPerm
          (SetKey (mkH235CryptoEngine ID_AES128) (List.replicate 16 0))
          [1, 2, 3] (some [10, 11, 12, 13, 14, 15]) false).1
        (some [10, 11, 12, 13, 14, 15])
        (Encrypt idPerm idPerm
          (SetKey (mkH235CryptoEngine ID_AES128) (List.replicate 16 0))
          [1, 2, 3] (some [10, 11, 12, 13, 14, 15]) false).2.1).1 = [1, 2, 3]
  ∧ (Decrypt idPerm idPerm
        (Encrypt idPerm idPerm
          (SetKey (mkH235CryptoEngine ID_AES128) (List.replicate 16 0))
          [1, 2, 3] (some [10, 11, 12, 13, 14, 15]) false).2.2
        (Encrypt idPerm idPerm
          (SetKey (mkH235CryptoEngine ID_AES128) (List.replicate 16 0))
          [1, 2, 3] (some [10, 11, 12, 13, 14, 15]) false).1
        (some [10, 11, 12, 13, 14, 15])
        (Encrypt idPerm idPerm
          (SetKey (mkH235CryptoEngine ID_AES128) (List.replicate 16 0))
          [1, 2, 3] (some [10, 11, 12, 13, 14, 15]) false).2.1).2.1 = false :=
  C1_roundtrip idPerm idPerm goodCipher_idPerm
    (SetKey (mkH235CryptoEngine ID_AES128) (List.replicate 16 0))
    (by decide) (by decide) (by decide) (by decide) (by decide)
    [1, 2, 3] [10, 11, 12, 13, 14, 15] (by decide) false

/-- Claim C8 counterexample: a successful `EncryptUpdateCTS` call with
positive input length (one byte, from a reset helper) exits with
`final_used = false` and `buf_len = 1`: the one-block staging branch does
not establish the claimed `final_used == 1` invariant. -/
theorem C8_counterexample :
    (EncryptUpdateCTS idPerm idPerm
       { iv := List.replicate 16 0, padding := false, buf := [],
         encrypt := true }
       mkH235CryptoHelper [42]).2.1.final_used = false := by decide

lemma cts_tail_split (q r : List Nat) (hq : q.length = 16)
    (hr : 16 < r.length) :
    ((r.drop ((if r.length % 16 ≠ 0 then r.length - (16 + r.length % 16)
        else r.length - 2 * 16) + 16)).take
      (if r.length % 16 ≠ 0 then r.length % 16 else 16)).length
      = (if r.length % 16 ≠ 0 then r.length % 16 else 16)
  ∧ 0 < (if r.length % 16 ≠ 0 then r.length % 16 else 16)
  ∧ (if r.length % 16 ≠ 0 then r.length % 16 else 16) ≤ 16
  ∧ (r.drop (if r.length % 16 ≠ 0 then r.length - (16 + r.length % 16)
        else r.length - 2 * 16)).take 16
      ++ (r.drop ((if r.length % 16 ≠ 0 then r.length - (16 + r.length % 16)
        else r.length - 2 * 16) + 16)).take
        (if r.length % 16 ≠ 0 then r.length % 16 else 16)
      = (q ++ r).drop ((q ++ r).length
        - (16 + (if r.length % 16 ≠ 0 then r.length % 16 else 16))) := by
  have hmain : ∀ i3 kp : Nat, i3 + 16 + kp = r.length → 0 < kp → kp ≤ 16 →
      ((r.drop (i3 + 16)).take kp).length = kp ∧ 0 < kp ∧ kp ≤ 16 ∧
      (r.drop i3).take 16 ++ (r.drop (i3 + 16)).take kp =
        (q ++ r).drop ((q ++ r).length - (16 + kp)) := by
    intro i3 kp hsum hpos hle
    have hdlen : (r.drop (i3 + 16)).length = kp := by
      rw [List.length_drop]
      omega
    have htk : (r.drop (i3 + 16)).take kp = r.drop (i3 + 16) :=
      List.take_of_length_le (by rw [hdlen])
    refine ⟨by rw [htk, hdlen], hpos, hle, ?_⟩
    rw [htk]
    have hdd : (r.drop i3).drop 16 = r.drop (i3 + 16) := List.drop_drop 16 i3 r
    rw [← hdd, List.take_append_drop]
    have hamt : (q ++ r).length - (16 + kp) = q.length + i3 := by
      rw [List.length_append, hq]
      omega
    rw [hamt, List.drop_append]
  by_cases hlo : r.length % 16 ≠ 0
  · simp only [if_pos hlo]
    exact hmain (r.length - (16 + r.length % 16)) (r.length % 16)
      (by omega) (by omega) (by omega)
  · simp only [if_neg hlo]
    exact hmain (r.length - 2 * 16) 16 (by omega) (by omega) (by omega)

/-- Claim C8 (amended): after a successful `EncryptUpdateCTS` call whose
staged bytes plus input exceed one block (the only calls the one-block
staging branch does not absorb; entering with at most one staged block),
the helper satisfies `final_used = 1` and `0 < buf_len ≤ 16`, and
`final_buf ++ buf` is exactly the final `16 + buf_len` bytes of the
staged-plus-new data, i.e. the final two blocks of the data passed through
so far. -/
theorem C8_cts_update_invariant (E D : List Nat → List Nat) (ctx : EvpCtx)
    (h : H235CryptoHelper) (inp : List Nat)
    (hb : h.buf.length ≤ 16) (hover : 16 < h.buf.length + inp.length) :
    (EncryptUpdateCTS E D ctx h inp).2.1.final_used = true
  ∧ 0 < (EncryptUpdateCTS E D ctx h inp).2.1.buf.length
  ∧ (EncryptUpdateCTS E D ctx h inp).2.1.buf.length ≤ 16
  ∧ (EncryptUpdateCTS E D ctx h inp).2.1.final_buf
      ++ (EncryptUpdateCTS E D ctx h inp).2.1.buf =
      (h.buf ++ inp).drop ((h.buf ++ inp).length
        - (16 + (EncryptUpdateCTS E D ctx h inp).2.1.buf.length)) := by
  have hinp0 : ¬ inp.length = 0 := by omega
  have hjle : 16 - h.buf.length ≤ inp.length := by omega
  have hbf : (h.buf ++ inp.take (16 - h.buf.length)).length = 16 := by
    simp only [List.length_append, List.length_take]
    omega
  have hqi : h.buf ++ inp =
      (h.buf ++ inp.take (16 - h.buf.length)) ++ inp.drop (16 - h.buf.length) := by
    rw [List.append_assoc, List.take_append_drop]
  have hrlen : (inp.drop (16 - h.buf.length)).length
      = h.buf.length + inp.length - 16 := by
    simp only [List.length_drop]
    omega
  have hrpos : 0 < (inp.drop (16 - h.buf.length)).length := by omega
  have hsmall : (inp.drop (16 - h.buf.length)).length ≤ 16 →
      ((h.buf ++ inp).length
        - (16 + (inp.drop (16 - h.buf.length)).length) = 0) := by
    intro hr16
    simp only [List.length_append]
    omega
  unfold EncryptUpdateCTS
  rw [if_neg hinp0, if_neg (by omega)]
  cases hfu : h.final_used with
  | false =>
      simp only [hfu, Bool.false_eq_true, if_false]
      by_cases hrest : (inp.drop (16 - h.buf.length)).length ≤ 16
      · rw [if_pos hrest]
        exact ⟨rfl, hrpos, hrest, by rw [hsmall hrest, List.drop_zero, hqi]⟩
      · rw [if_neg hrest]
        push_neg at hrest
        have := cts_tail_split (h.buf ++ inp.take (16 - h.buf.length))
          (inp.drop (16 - h.buf.length)) hbf hrest
        exact ⟨rfl, by rw [this.1]; exact this.2.1, by rw [this.1]; exact this.2.2.1,
          by rw [this.1, hqi]; exact this.2.2.2⟩
  | true =>
      simp only [hfu, eq_self_iff_true, if_true]
      by_cases hrest : (inp.drop (16 - h.buf.length)).length ≤ 16
      · rw [if_pos hrest]
        exact ⟨rfl, hrpos, hrest, by rw [hsmall hrest, List.drop_zero, hqi]⟩
      · rw [if_neg hrest]
        push_neg at hrest
        have := cts_tail_split (h.buf ++ inp.take (16 - h.buf.length))
          (inp.drop (16 - h.buf.length)) hbf hrest
        exact ⟨rfl, by rw [this.1]; exact this.2.1, by rw [this.1]; exact this.2.2.1,
          by rw [this.1, hqi]; exact this.2.2.2⟩

theorem C8_witness :
    (EncryptUpdateCTS idPerm idPerm
       { iv := List.replicate 16 0, padding := false, buf := [],
         encrypt := true }
       mkH235CryptoHelper (List.range 40)).2.1.final_used = true
  ∧ (EncryptUpdateCTS idPerm idPerm
       { iv := List.replicate 16 0, padding := false, buf := [],
         encrypt := true }
       mkH235CryptoHelper (List.range 40)).2.1.final_buf
      ++ (EncryptUpdateCTS idPerm idPerm
       { iv := List.replicate 16 0, padding := false, buf := [],
         encrypt := true }
       mkH235CryptoHelper (List.range 40)).2.1.buf =
      (List.range 40).drop 16 :=
  ⟨(C8_cts_update_invariant idPerm idPerm
      { iv := List.replicate 16 0, padding := false, buf := [],
        encrypt := true }
      mkH235CryptoHelper (List.range 40) (by decide) (by decide)).1,
   ((C8_cts_update_invariant idPerm idPerm
      { iv := List.replicate 16 0, padding := false, buf := [],
        encrypt := true }
      mkH235CryptoHelper (List.range 40) (by decide) (by decide)).2.2.2).trans
      (by decide)⟩
